import Mathlib

/-!
Verification of the IIM (Inoperability Input-Output Model) engine.

The development below is a shallow embedding of the class `IIM` in
`iim/iim.py`.  Machine floats are embedded as rationals (`ℚ`); the parsed
CSV is a list of rows, each row a width-`n` vector, where `n` is the
number of columns, i.e. the number of sectors; the ordered pandas column
index becomes `sectors : Fin n → String`.  `numpy.linalg.inv`, which
raises `LinAlgError` on a singular matrix, is embedded as an
`Option`-valued inverse that is `none` exactly when the determinant
vanishes; a raised Python exception during `__init__` is embedded as a
`none` result of `construct`.
-/

namespace IIM

/-- Embedding of `pandas.Index.get_loc` on a unique index: position of
the first column whose label matches, `none` when the label is absent
(Python raises `KeyError`). -/
def getLoc {n : ℕ} (sectors : Fin n → String) (t : String) : Option (Fin n) :=
  (List.finRange n).find? (fun i => sectors i == t)

/-- Embedding of `numpy.linalg.inv` over `ℚ`: `none` when the matrix is
singular (numpy raises `LinAlgError`), otherwise the true inverse,
written as `det⁻¹ • adjugate` so that the definition is executable. -/
def npLinalgInv {n : ℕ} (M : Matrix (Fin n) (Fin n) ℚ) :
    Option (Matrix (Fin n) (Fin n) ℚ) :=
  if M.det = 0 then none else some ((M.det)⁻¹ • M.adjugate)

/-- Embedding of `IIM._read_io_table` after the CSV parse.  For
`table == "IO"` the last row is split off as the total-output vector
`xoutput` and the remaining rows form the I/O table; otherwise the rows
are kept whole and `xoutput` stays at its initial value (in Python
`self.xoutput = []` is never read in that case). -/
def readIOTable {n : ℕ} (csvRows : List (Fin n → ℚ)) (table : String) :
    List (Fin n → ℚ) × (Fin n → ℚ) :=
  if table = "IO" then
    (csvRows.dropLast, csvRows.getLast?.getD (fun _ => 0))
  else
    (csvRows, fun _ => 0)

/-- Reading a list of rows as a square matrix; `none` when the row count
does not match the sector count (numpy indexing would raise). -/
def rowsToMatrix {n : ℕ} (rows : List (Fin n → ℚ)) :
    Option (Matrix (Fin n) (Fin n) ℚ) :=
  if h : rows.length = n then
    some (Matrix.of fun i j => (rows.get (Fin.cast h.symm i)) j)
  else none

/-- Embedding of `IIM._tech_coeff_matrix`: Leontief technical
coefficients `A[i,j] = T[i,j] / x[j]` with a zero guard on `x[j]`;
`A` stays the zero matrix when the input is not a raw I/O table. -/
def techCoeffMatrix {n : ℕ} (table : String)
    (ioTab : Matrix (Fin n) (Fin n) ℚ) (x : Fin n → ℚ) :
    Matrix (Fin n) (Fin n) ℚ :=
  if table = "IO" then
    Matrix.of fun i j => if x j ≠ 0 then ioTab i j / x j else 0
  else 0

/-- Embedding of the `A*` computation in `IIM._interdepenency_matrix`:
supply mode transposes `A` (raw table) or passes the input through
(pre-built matrix); demand mode row-normalises the raw table by `x[i]`
with a zero guard, or passes the input through. -/
def interdependencyMatrix {n : ℕ} (table mode : String)
    (ioTab : Matrix (Fin n) (Fin n) ℚ) (x : Fin n → ℚ)
    (amat : Matrix (Fin n) (Fin n) ℚ) : Matrix (Fin n) (Fin n) ℚ :=
  if mode = "Supply" then
    if table = "IO" then amat.transpose else ioTab
  else
    if table = "IO" then
      Matrix.of fun i j => if x i ≠ 0 then ioTab i j / x i else 0
    else ioTab

/-- The loop of `IIM._create_perturbation`: walk the zipped
(sector, value) pairs, writing each value at the sector's index;
an unknown sector name aborts (Python `KeyError`). -/
def perturbLoop {n : ℕ} (sectors : Fin n → String) :
    List (String × ℚ) → (Fin n → ℚ) → Option (Fin n → ℚ)
  | [], c => some c
  | (ps, cs) :: rest, c =>
    match getLoc sectors ps with
    | none => none
    | some indx => perturbLoop sectors rest (Function.update c indx cs)

/-- Embedding of `IIM._create_perturbation`: start from the zero vector
and process `zip(psector, cvalue)` (which truncates to the shorter list,
exactly as Python's `zip` does). -/
def createPerturbation {n : ℕ} (sectors : Fin n → String)
    (psector : List String) (cvalue : List ℚ) : Option (Fin n → ℚ) :=
  perturbLoop sectors (psector.zip cvalue) (fun _ => 0)

/-- The state of an `IIM` instance after `__init__` has finished. -/
structure Model (n : ℕ) where
  sectors : Fin n → String
  ioTab : Matrix (Fin n) (Fin n) ℚ
  xoutput : Fin n → ℚ
  amat : Matrix (Fin n) (Fin n) ℚ
  astar : Matrix (Fin n) (Fin n) ℚ
  smat : Matrix (Fin n) (Fin n) ℚ
  cstar : Fin n → ℚ
  table : String
  mode : String

/-- Embedding of `IIM.__init__`: read the table, build the perturbation
vector, the technical-coefficient matrix, the interdependency matrix and
the resolvent `S = (I − A*)⁻¹`; any raised exception yields `none`. -/
def construct {n : ℕ} (sectors : Fin n → String)
    (csvRows : List (Fin n → ℚ))
    (psector : List String) (cvalue : List ℚ) (table mode : String) :
    Option (Model n) :=
  match rowsToMatrix (readIOTable csvRows table).1,
      createPerturbation sectors psector cvalue with
  | some t, some c =>
    match npLinalgInv (1 - interdependencyMatrix table mode t
        (readIOTable csvRows table).2
        (techCoeffMatrix table t (readIOTable csvRows table).2)) with
    | some s =>
      some ⟨sectors, t, (readIOTable csvRows table).2,
            techCoeffMatrix table t (readIOTable csvRows table).2,
            interdependencyMatrix table mode t (readIOTable csvRows table).2
              (techCoeffMatrix table t (readIOTable csvRows table).2),
            s, c, table, mode⟩
    | none => none
  | _, _ => none

/-- Embedding of `IIM.inoperability`: `q = S·c*` with entries above `1`
clamped to `1` (`q[q > 1.0] = 1.0`); no lower clamp. -/
def inoperability {n : ℕ} (m : Model n) : Fin n → ℚ :=
  fun i =>
    if 1 < m.smat.mulVec m.cstar i then 1 else m.smat.mulVec m.cstar i

/-- Embedding of `IIM.dependency`: row sums of `A*` without the diagonal,
divided by `n − 1`; the sums are only taken in demand mode. -/
def dependency {n : ℕ} (m : Model n) : Fin n → ℚ :=
  fun i =>
    (if m.mode = "Demand" then
      ∑ j ∈ Finset.univ.filter (fun j => j ≠ i), m.astar i j
    else 0) / ((n : ℚ) - 1)

/-- Embedding of `IIM.influence`: column sums of `A*` without the
diagonal, divided by `n − 1`; demand mode only. -/
def influence {n : ℕ} (m : Model n) : Fin n → ℚ :=
  fun j =>
    (if m.mode = "Demand" then
      ∑ i ∈ Finset.univ.filter (fun i => i ≠ j), m.astar i j
    else 0) / ((n : ℚ) - 1)

/-- Embedding of `IIM.overall_dependency`: as `dependency`, over `S`. -/
def overallDependency {n : ℕ} (m : Model n) : Fin n → ℚ :=
  fun i =>
    (if m.mode = "Demand" then
      ∑ j ∈ Finset.univ.filter (fun j => j ≠ i), m.smat i j
    else 0) / ((n : ℚ) - 1)

/-- Embedding of `IIM.overall_influence`: as `influence`, over `S`. -/
def overallInfluence {n : ℕ} (m : Model n) : Fin n → ℚ :=
  fun j =>
    (if m.mode = "Demand" then
      ∑ i ∈ Finset.univ.filter (fun i => i ≠ j), m.smat i j
    else 0) / ((n : ℚ) - 1)

/-- Embedding of `IIM.interdependency_index`: look both sector names up
(`KeyError` on an unknown name), then return `(A*^order)[i,j]`;
`numpy.linalg.matrix_power` at a non-negative exponent is the monoid
power (exponent `0` gives the identity matrix). -/
def interdependencyIndex {n : ℕ} (m : Model n)
    (isector jsector : String) (order : ℕ) : Option ℚ :=
  match getLoc m.sectors isector, getLoc m.sectors jsector with
  | some i, some j => some ((m.astar ^ order) i j)
  | _, _ => none

/-- The scan of `numpy.argmax`: keep the current best index and replace
it only on a strictly larger value, so the first maximum wins. -/
def argmaxFrom {k : ℕ} (v : Fin k → ℚ) (b : Fin k) :
    List (Fin k) → Fin k
  | [] => b
  | idx :: rest => argmaxFrom v (if v b < v idx then idx else b) rest

/-- Embedding of `numpy.argmax` on a length-`k` vector: index of the
first occurrence of the maximum value; `none` on an empty vector
(numpy raises `ValueError` there). -/
def npArgmax {k : ℕ} (v : Fin k → ℚ) : Option (Fin k) :=
  match List.finRange k with
  | [] => none
  | b :: rest => some (argmaxFrom v b rest)

/-- The result-building loop of `IIM.max_nth_order_interdependency`:
for each processed row index `i`, the first column `j` attaining the
row maximum of `amat` together with both sector names and that value;
a failing `argmax` (empty row) aborts. -/
def maxRowsLoop {n : ℕ} (sectors : Fin n → String)
    (amat : Matrix (Fin n) (Fin n) ℚ) :
    List (Fin n) → Option (List (String × String × ℚ))
  | [] => some []
  | i :: rest =>
    match npArgmax (fun j => amat i j) with
    | none => none
    | some j =>
      (maxRowsLoop sectors amat rest).map
        (fun res => (sectors i, sectors j, amat i j) :: res)

/-- Embedding of `IIM.max_nth_order_interdependency`: `assert n >= 1`
(an `AssertionError` is embedded as `none`), then the row loop above
over all rows of `A*^n` in sector order. -/
def maxNthOrderInterdependency {n : ℕ} (m : Model n) (order : ℕ) :
    Option (List (String × String × ℚ)) :=
  if 1 ≤ order then
    maxRowsLoop m.sectors (m.astar ^ order) (List.finRange n)
  else none

/-- The rows of a matrix, in order: used to feed a computed `A*` back in
as a pre-built interdependency matrix (round-trip scenario). -/
def matrixRows {n : ℕ} (M : Matrix (Fin n) (Fin n) ℚ) :
    List (Fin n → ℚ) :=
  (List.finRange n).map (fun i => M i)

/-- The mode-independent numerical content of a constructed model: all
stored matrices and vectors, plus the inoperability vector. -/
def derivedData {n : ℕ} (m : Model n) :
    Matrix (Fin n) (Fin n) ℚ × (Fin n → ℚ) × Matrix (Fin n) (Fin n) ℚ ×
      Matrix (Fin n) (Fin n) ℚ × Matrix (Fin n) (Fin n) ℚ ×
      (Fin n → ℚ) × (Fin n → ℚ) :=
  (m.ioTab, m.xoutput, m.amat, m.astar, m.smat, m.cstar, inoperability m)

/-! ### Concrete scenarios used to instantiate the general theorems -/

/-- Two generic sector names. -/
def secAB : Fin 2 → String := !["S1", "S2"]

/-- A pre-built 2×2 interdependency matrix, as CSV rows. -/
def pbRows : List (Fin 2 → ℚ) := [![0, 1/2], ![0, 0]]

/-- The matrix carried by `pbRows`. -/
def pbAstar : Matrix (Fin 2) (Fin 2) ℚ := !![0, 1/2; 0, 0]

/-- The resolvent `(I − pbAstar)⁻¹`. -/
def pbSmat : Matrix (Fin 2) (Fin 2) ℚ := !![1, 1/2; 0, 1]

/-- A raw 2-sector input-output table with a trailing total-output row. -/
def ioRows : List (Fin 2 → ℚ) := [![1, 2], ![3, 4], ![2, 4]]

/-- The flow part of `ioRows`. -/
def ioT : Matrix (Fin 2) (Fin 2) ℚ := !![1, 2; 3, 4]

/-- The total-output row of `ioRows`. -/
def ioX : Fin 2 → ℚ := ![2, 4]

/-- Leontief coefficients of `ioRows`: `A[i,j] = T[i,j]/x[j]`. -/
def ioAmat : Matrix (Fin 2) (Fin 2) ℚ := !![1/2, 1/2; 3/2, 1]

/-- Demand-driven `A*` of `ioRows`: `A*[i,j] = T[i,j]/x[i]`. -/
def ioAstarD : Matrix (Fin 2) (Fin 2) ℚ := !![1/2, 1; 3/4, 1]

/-- The demand-mode resolvent `(I − ioAstarD)⁻¹`. -/
def ioSmatD : Matrix (Fin 2) (Fin 2) ℚ := !![0, -(4/3); -1, -(2/3)]

/-- Supply-driven `A*` of `ioRows`: the transpose of `ioAmat`. -/
def ioAstarS : Matrix (Fin 2) (Fin 2) ℚ := !![1/2, 3/2; 1/2, 1]

/-- The supply-mode resolvent `(I − ioAstarS)⁻¹`. -/
def ioSmatS : Matrix (Fin 2) (Fin 2) ℚ := !![0, -2; -(2/3), -(2/3)]

/-- CSV rows carrying the 2×2 identity as a pre-built matrix, making
`I − A*` singular. -/
def idRows : List (Fin 2 → ℚ) := [![1, 0], ![0, 1]]

/-- Sector names of the spec's concrete 2-sector scenario. -/
def c6sectors : Fin 2 → String := !["Sector1", "Sector2"]

/-- The spec scenario's pre-built matrix `A* = [[0, 0.8], [0.7, 0]]`. -/
def c6rows : List (Fin 2 → ℚ) := [![0, 4/5], ![7/10, 0]]

/-- The matrix carried by `c6rows`. -/
def c6astar : Matrix (Fin 2) (Fin 2) ℚ := !![0, 4/5; 7/10, 0]

/-- The resolvent `(I − c6astar)⁻¹ = (25/11)·[[1, 0.8], [0.7, 1]]`. -/
def c6smat : Matrix (Fin 2) (Fin 2) ℚ := !![25/11, 20/11; 35/22, 25/11]

/-- The perturbation vector for `c* = [0, 0.6]`. -/
def c6cstar : Fin 2 → ℚ := ![0, 3/5]

/-- A 2-sector demand-mode model literal for index computations. -/
def mdl2 : Model 2 :=
  ⟨secAB, 0, 0, 0, pbAstar, pbSmat, ![0, 1], "A", "Demand"⟩

/-- A 2-sector supply-mode model literal. -/
def mdl2S : Model 2 :=
  ⟨secAB, 0, 0, 0, pbAstar, pbSmat, ![0, 1], "A", "Supply"⟩

/-- The model built from `pbRows` as a pre-built matrix, for a given
perturbation vector and mode string. -/
def pbModel (c : Fin 2 → ℚ) (mode : String) : Model 2 :=
  ⟨secAB, pbAstar, fun _ => 0, 0, pbAstar, pbSmat, c, "A", mode⟩

/-- The model built from the raw table `ioRows` in demand mode. -/
def ioModelD : Model 2 :=
  ⟨secAB, ioT, ioX, ioAmat, ioAstarD, ioSmatD, fun _ => 0, "IO", "Demand"⟩

/-- The model built from the raw table `ioRows` in supply mode. -/
def ioModelS : Model 2 :=
  ⟨secAB, ioT, ioX, ioAmat, ioAstarS, ioSmatS, fun _ => 0, "IO", "Supply"⟩

/-- The model of the spec's concrete 2-sector scenario. -/
def c6model : Model 2 :=
  ⟨c6sectors, c6astar, fun _ => 0, 0, c6astar, c6smat, c6cstar, "A", "Demand"⟩

/-! ### General helper lemmas -/

theorem rowsToMatrix_len {n : ℕ} (rows : List (Fin n → ℚ))
    (h : rows.length = n) :
    rowsToMatrix rows =
      some (Matrix.of fun i j => (rows.get (Fin.cast h.symm i)) j) := by
  unfold rowsToMatrix
  rw [dif_pos h]

theorem npLinalgInv_of_det_ne {n : ℕ} (M : Matrix (Fin n) (Fin n) ℚ)
    (h : M.det ≠ 0) :
    npLinalgInv M = some ((M.det)⁻¹ • M.adjugate) := by
  unfold npLinalgInv
  rw [if_neg h]

theorem npLinalgInv_of_det_eq {n : ℕ} (M : Matrix (Fin n) (Fin n) ℚ)
    (h : M.det = 0) : npLinalgInv M = none := by
  unfold npLinalgInv
  rw [if_pos h]

theorem npLinalgInv_some {n : ℕ} {M N : Matrix (Fin n) (Fin n) ℚ}
    (h : npLinalgInv M = some N) :
    M.det ≠ 0 ∧ N = M⁻¹ ∧ M * N = 1 ∧ N * M = 1 := by
  unfold npLinalgInv at h
  by_cases hd : M.det = 0
  · rw [if_pos hd] at h
    exact absurd h (by simp)
  · rw [if_neg hd] at h
    have hN : N = (M.det)⁻¹ • M.adjugate := by
      exact (Option.some_injective _ h).symm
    have hunit : IsUnit M.det := isUnit_iff_ne_zero.mpr hd
    have hinv : N = M⁻¹ := by
      rw [hN, Matrix.inv_def, Ring.inverse_eq_inv]
    refine ⟨hd, hinv, ?_, ?_⟩
    · rw [hinv]
      exact Matrix.mul_nonsing_inv M hunit
    · rw [hinv]
      exact Matrix.nonsing_inv_mul M hunit

theorem readIOTable_other {n : ℕ} (rows : List (Fin n → ℚ))
    {table : String} (h : table ≠ "IO") :
    readIOTable rows table = (rows, fun _ => 0) := by
  unfold readIOTable
  rw [if_neg h]

theorem construct_eq_some {n : ℕ} {sectors : Fin n → String}
    {rows : List (Fin n → ℚ)} {ps : List String} {cv : List ℚ}
    {table mode : String}
    {t s : Matrix (Fin n) (Fin n) ℚ} {c : Fin n → ℚ}
    (h1 : rowsToMatrix (readIOTable rows table).1 = some t)
    (h2 : createPerturbation sectors ps cv = some c)
    (h3 : npLinalgInv (1 - interdependencyMatrix table mode t
            (readIOTable rows table).2
            (techCoeffMatrix table t (readIOTable rows table).2)) = some s) :
    construct sectors rows ps cv table mode =
      some ⟨sectors, t, (readIOTable rows table).2,
            techCoeffMatrix table t (readIOTable rows table).2,
            interdependencyMatrix table mode t (readIOTable rows table).2
              (techCoeffMatrix table t (readIOTable rows table).2),
            s, c, table, mode⟩ := by
  unfold construct
  simp only [h1, h2, h3]

theorem construct_some_elim {n : ℕ} {sectors : Fin n → String}
    {rows : List (Fin n → ℚ)} {ps : List String} {cv : List ℚ}
    {table mode : String} {m : Model n}
    (h : construct sectors rows ps cv table mode = some m) :
    ∃ t s c, rowsToMatrix (readIOTable rows table).1 = some t ∧
      createPerturbation sectors ps cv = some c ∧
      npLinalgInv (1 - interdependencyMatrix table mode t
        (readIOTable rows table).2
        (techCoeffMatrix table t (readIOTable rows table).2)) = some s ∧
      m = ⟨sectors, t, (readIOTable rows table).2,
            techCoeffMatrix table t (readIOTable rows table).2,
            interdependencyMatrix table mode t (readIOTable rows table).2
              (techCoeffMatrix table t (readIOTable rows table).2),
            s, c, table, mode⟩ := by
  unfold construct at h
  cases hT : rowsToMatrix (readIOTable rows table).1 with
  | none => rw [hT] at h; exact absurd h (by simp)
  | some t =>
    cases hc : createPerturbation sectors ps cv with
    | none => rw [hT, hc] at h; exact absurd h (by simp)
    | some c =>
      rw [hT, hc] at h
      dsimp only at h
      cases hs : npLinalgInv (1 - interdependencyMatrix table mode t
          (readIOTable rows table).2
          (techCoeffMatrix table t (readIOTable rows table).2)) with
      | none => rw [hs] at h; exact absurd h (by simp)
      | some s =>
        rw [hs] at h
        exact ⟨t, s, c, rfl, rfl, hs, (Option.some_injective _ h).symm⟩

/-! ### Claim theorems -/

/-- Claim C2: for every model, `inoperability()` returns the vector
`q = S·c*` clamped elementwise to an upper bound of `1.0` (each entry is
`min` of the raw entry and `1`, hence `≤ 1`); no lower clamp is applied,
so entries below zero are returned as computed (immediate from the `min`
form).  The result has length `N` by its type `Fin n → ℚ`. -/
theorem claim2_inoperability_clamped {n : ℕ} (m : Model n) (i : Fin n) :
    inoperability m i = min (m.smat.mulVec m.cstar i) 1 ∧
    inoperability m i ≤ 1 := by
  unfold inoperability
  by_cases h : 1 < m.smat.mulVec m.cstar i
  · rw [if_pos h, min_eq_right h.le]
    exact ⟨rfl, le_refl 1⟩
  · rw [if_neg h, min_eq_left (not_lt.mp h)]
    exact ⟨rfl, not_lt.mp h⟩

/-- Claim C5: for `N ≥ 2` in demand mode, `dependency(i)` is the average
of `A*[i,j]` over `j ≠ i` (the off-diagonal row sum divided by the
cardinality `N − 1` of `{j ≠ i}`), `influence(i)` the same over the
column, and the `overall_` variants are the identical formulas over `S`;
in supply mode all four return the zero vector. -/
theorem claim5_dependency_influence {n : ℕ} (m : Model n) (hn : 2 ≤ n) :
    (m.mode = "Demand" → ∀ i : Fin n,
      dependency m i =
        (∑ j ∈ Finset.univ.filter (fun j => j ≠ i), m.astar i j) /
          ((Finset.univ.filter (fun j => j ≠ i)).card : ℚ) ∧
      influence m i =
        (∑ j ∈ Finset.univ.filter (fun j => j ≠ i), m.astar j i) /
          ((Finset.univ.filter (fun j => j ≠ i)).card : ℚ) ∧
      overallDependency m i =
        (∑ j ∈ Finset.univ.filter (fun j => j ≠ i), m.smat i j) /
          ((Finset.univ.filter (fun j => j ≠ i)).card : ℚ) ∧
      overallInfluence m i =
        (∑ j ∈ Finset.univ.filter (fun j => j ≠ i), m.smat j i) /
          ((Finset.univ.filter (fun j => j ≠ i)).card : ℚ)) ∧
    (m.mode = "Supply" → ∀ i : Fin n,
      dependency m i = 0 ∧ influence m i = 0 ∧
      overallDependency m i = 0 ∧ overallInfluence m i = 0) := by
  have hcard : ∀ i : Fin n,
      (((Finset.univ.filter (fun j => j ≠ i)).card : ℕ) : ℚ) =
        (n : ℚ) - 1 := by
    intro i
    rw [Finset.filter_ne', Finset.card_erase_of_mem (Finset.mem_univ i),
      Finset.card_univ, Fintype.card_fin,
      Nat.cast_sub (le_trans one_le_two hn), Nat.cast_one]
  constructor
  · intro hd i
    refine ⟨?_, ?_, ?_, ?_⟩
    · unfold dependency
      rw [if_pos hd, hcard i]
    · unfold influence
      rw [if_pos hd, hcard i]
    · unfold overallDependency
      rw [if_pos hd, hcard i]
    · unfold overallInfluence
      rw [if_pos hd, hcard i]
  · intro hs i
    have hd : ¬ m.mode = "Demand" := by
      rw [hs]; decide
    refine ⟨?_, ?_, ?_, ?_⟩
    · unfold dependency
      rw [if_neg hd, zero_div]
    · unfold influence
      rw [if_neg hd, zero_div]
    · unfold overallDependency
      rw [if_neg hd, zero_div]
    · unfold overallInfluence
      rw [if_neg hd, zero_div]

/-- Witness for C5: the 2-sector demand-mode and supply-mode model
literals instantiate both halves of the claim. -/
theorem claim5_witness :
    (2 ≤ 2) ∧
    dependency mdl2 0 =
      (∑ j ∈ Finset.univ.filter (fun j => j ≠ (0 : Fin 2)), mdl2.astar 0 j) /
        ((Finset.univ.filter (fun j => j ≠ (0 : Fin 2))).card : ℚ) ∧
    dependency mdl2S 0 = 0 := by
  refine ⟨le_refl 2, ?_, ?_⟩
  · exact ((claim5_dependency_influence mdl2 (le_refl 2)).1 rfl 0).1
  · exact ((claim5_dependency_influence mdl2S (le_refl 2)).2 rfl 0).1

/-- Claim C8: for all sectors `i`, `j` of any model,
`interdependency_index(i, j, 1)` equals `A*[i,j]` exactly, and
`interdependency_index(i, j, 0)` equals `1` if `i = j` else `0`
(matrix power of order `0` is the identity). -/
theorem claim8_index_orders {n : ℕ} (m : Model n)
    {si sj : String} {i j : Fin n}
    (hi : getLoc m.sectors si = some i) (hj : getLoc m.sectors sj = some j) :
    interdependencyIndex m si sj 1 = some (m.astar i j) ∧
    interdependencyIndex m si sj 0 = some (if i = j then (1 : ℚ) else 0) := by
  unfold interdependencyIndex
  rw [hi, hj]
  dsimp only
  constructor
  · rw [pow_one]
  · rw [pow_zero, Matrix.one_apply]

/-- Witness for C8: concrete lookups in the 2-sector model literal. -/
theorem claim8_witness :
    getLoc mdl2.sectors "S1" = some 0 ∧
    getLoc mdl2.sectors "S2" = some 1 ∧
    interdependencyIndex mdl2 "S1" "S2" 1 = some (mdl2.astar 0 1) ∧
    interdependencyIndex mdl2 "S1" "S2" 0 =
      some (if (0 : Fin 2) = 1 then (1 : ℚ) else 0) := by
  have h1 : getLoc mdl2.sectors "S1" = some 0 := rfl
  have h2 : getLoc mdl2.sectors "S2" = some 1 := rfl
  have h := claim8_index_orders mdl2 h1 h2
  exact ⟨h1, h2, h.1, h.2⟩

/-! ### Concrete evaluation lemmas for the scenarios -/

theorem construct_prebuilt {n : ℕ} {sectors : Fin n → String}
    {rows : List (Fin n → ℚ)} {ps : List String} {cv : List ℚ}
    {table mode : String} {t : Matrix (Fin n) (Fin n) ℚ} {c : Fin n → ℚ}
    (htable : table ≠ "IO") (hmode : mode ≠ "Supply")
    (hT : rowsToMatrix rows = some t)
    (hc : createPerturbation sectors ps cv = some c)
    (hdet : (1 - t).det ≠ 0) :
    construct sectors rows ps cv table mode =
      some ⟨sectors, t, fun _ => 0, 0, t,
            ((1 - t).det)⁻¹ • (1 - t).adjugate, c, table, mode⟩ := by
  have hr : readIOTable rows table = (rows, fun _ => 0) :=
    readIOTable_other rows htable
  have e2 : techCoeffMatrix table t (fun _ => (0 : ℚ)) = 0 := by
    unfold techCoeffMatrix
    rw [if_neg htable]
  have e3 : interdependencyMatrix table mode t (fun _ => (0 : ℚ)) 0 = t := by
    unfold interdependencyMatrix
    rw [if_neg hmode, if_neg htable]
  have h1 : rowsToMatrix (readIOTable rows table).1 = some t := by
    rw [hr]
    exact hT
  have h3 : npLinalgInv (1 - interdependencyMatrix table mode t
      (readIOTable rows table).2
      (techCoeffMatrix table t (readIOTable rows table).2)) =
      some (((1 - t).det)⁻¹ • (1 - t).adjugate) := by
    simp only [hr, e2, e3]
    exact npLinalgInv_of_det_ne _ hdet
  have h := construct_eq_some h1 hc h3
  simp only [hr, e2, e3] at h
  exact h

theorem pb_parse : rowsToMatrix pbRows = some pbAstar := by
  rw [rowsToMatrix_len pbRows rfl]
  congr 1
  ext i j
  fin_cases i <;> fin_cases j <;> rfl

theorem pb_one_sub :
    (1 : Matrix (Fin 2) (Fin 2) ℚ) - pbAstar = !![1, -(1/2); 0, 1] := by
  ext i j
  fin_cases i <;> fin_cases j <;>
    norm_num [pbAstar, Matrix.one_apply, Matrix.sub_apply]

theorem pb_det : ((1 : Matrix (Fin 2) (Fin 2) ℚ) - pbAstar).det ≠ 0 := by
  rw [pb_one_sub, Matrix.det_fin_two_of]
  norm_num

theorem pb_smat_eq :
    (((1 : Matrix (Fin 2) (Fin 2) ℚ) - pbAstar).det)⁻¹ •
      ((1 : Matrix (Fin 2) (Fin 2) ℚ) - pbAstar).adjugate = pbSmat := by
  rw [pb_one_sub, Matrix.det_fin_two_of, Matrix.adjugate_fin_two_of]
  ext i j
  fin_cases i <;> fin_cases j <;> norm_num [pbSmat, Matrix.smul_apply]

theorem pb_construct {ps : List String} {cv : List ℚ} {c : Fin 2 → ℚ}
    {mode : String} (hmode : mode ≠ "Supply")
    (hc : createPerturbation secAB ps cv = some c) :
    construct secAB pbRows ps cv "A" mode = some (pbModel c mode) := by
  have htable : "A" ≠ "IO" := by decide
  have h := construct_prebuilt htable hmode pb_parse hc pb_det
  rw [h, pb_smat_eq]
  rfl

theorem perturb_empty {n : ℕ} (sectors : Fin n → String) :
    createPerturbation sectors [] [] = some (fun _ => 0) := rfl

theorem io_parse : rowsToMatrix (readIOTable ioRows "IO").1 = some ioT := by
  have e : (readIOTable ioRows "IO").1 = [![1, 2], ![3, 4]] := rfl
  rw [e, rowsToMatrix_len [![1, 2], ![3, 4]] rfl]
  congr 1
  ext i j
  fin_cases i <;> fin_cases j <;> rfl

theorem io_x : (readIOTable ioRows "IO").2 = ioX := by
  ext i
  fin_cases i <;> rfl

theorem io_amat_eq :
    techCoeffMatrix "IO" ioT (readIOTable ioRows "IO").2 = ioAmat := by
  rw [io_x]
  unfold techCoeffMatrix
  rw [if_pos rfl]
  ext i j
  fin_cases i <;> fin_cases j <;> norm_num [ioT, ioX, ioAmat]

theorem io_astarD_eq :
    interdependencyMatrix "IO" "Demand" ioT (readIOTable ioRows "IO").2
      (techCoeffMatrix "IO" ioT (readIOTable ioRows "IO").2) = ioAstarD := by
  rw [io_x]
  unfold interdependencyMatrix
  rw [if_neg (by decide), if_pos rfl]
  ext i j
  fin_cases i <;> fin_cases j <;> norm_num [ioT, ioX, ioAstarD]

theorem io_astarS_eq :
    interdependencyMatrix "IO" "Supply" ioT (readIOTable ioRows "IO").2
      (techCoeffMatrix "IO" ioT (readIOTable ioRows "IO").2) = ioAstarS := by
  unfold interdependencyMatrix
  rw [if_pos rfl, if_pos rfl, io_amat_eq]
  ext i j
  fin_cases i <;> fin_cases j <;>
    norm_num [ioAmat, ioAstarS, Matrix.transpose_apply]

theorem ioD_one_sub :
    (1 : Matrix (Fin 2) (Fin 2) ℚ) - ioAstarD = !![1/2, -1; -(3/4), 0] := by
  ext i j
  fin_cases i <;> fin_cases j <;>
    norm_num [ioAstarD, Matrix.one_apply, Matrix.sub_apply]

theorem ioD_smat_inv : npLinalgInv ((1 : Matrix (Fin 2) (Fin 2) ℚ) - ioAstarD) =
    some ioSmatD := by
  rw [ioD_one_sub]
  have hd : (!![1/2, -1; -(3/4), 0] : Matrix (Fin 2) (Fin 2) ℚ).det = -(3/4) := by
    rw [Matrix.det_fin_two_of]
    norm_num
  rw [npLinalgInv_of_det_ne _ (by rw [hd]; norm_num)]
  congr 1
  rw [hd, Matrix.adjugate_fin_two_of]
  ext i j
  fin_cases i <;> fin_cases j <;> norm_num [ioSmatD, Matrix.smul_apply]

theorem ioS_one_sub :
    (1 : Matrix (Fin 2) (Fin 2) ℚ) - ioAstarS = !![1/2, -(3/2); -(1/2), 0] := by
  ext i j
  fin_cases i <;> fin_cases j <;>
    norm_num [ioAstarS, Matrix.one_apply, Matrix.sub_apply]

theorem ioS_smat_inv : npLinalgInv ((1 : Matrix (Fin 2) (Fin 2) ℚ) - ioAstarS) =
    some ioSmatS := by
  rw [ioS_one_sub]
  have hd : (!![1/2, -(3/2); -(1/2), 0] : Matrix (Fin 2) (Fin 2) ℚ).det = -(3/4) := by
    rw [Matrix.det_fin_two_of]
    norm_num
  rw [npLinalgInv_of_det_ne _ (by rw [hd]; norm_num)]
  congr 1
  rw [hd, Matrix.adjugate_fin_two_of]
  ext i j
  fin_cases i <;> fin_cases j <;> norm_num [ioSmatS, Matrix.smul_apply]

theorem ioD_construct :
    construct secAB ioRows [] [] "IO" "Demand" = some ioModelD := by
  have h3 : npLinalgInv (1 - interdependencyMatrix "IO" "Demand" ioT
      (readIOTable ioRows "IO").2
      (techCoeffMatrix "IO" ioT (readIOTable ioRows "IO").2)) =
      some ioSmatD := by
    rw [io_astarD_eq]
    exact ioD_smat_inv
  have h := construct_eq_some io_parse (perturb_empty secAB) h3
  rw [h]
  unfold ioModelD
  rw [io_astarD_eq, io_amat_eq, io_x]

theorem ioS_construct :
    construct secAB ioRows [] [] "IO" "Supply" = some ioModelS := by
  have h3 : npLinalgInv (1 - interdependencyMatrix "IO" "Supply" ioT
      (readIOTable ioRows "IO").2
      (techCoeffMatrix "IO" ioT (readIOTable ioRows "IO").2)) =
      some ioSmatS := by
    rw [io_astarS_eq]
    exact ioS_smat_inv
  have h := construct_eq_some io_parse (perturb_empty secAB) h3
  rw [h]
  unfold ioModelS
  rw [io_astarS_eq, io_amat_eq, io_x]

theorem id_parse : rowsToMatrix (readIOTable idRows "A").1 = some 1 := by
  have e : (readIOTable idRows "A").1 = idRows := by
    rw [readIOTable_other idRows (by decide)]
  rw [e, rowsToMatrix_len idRows rfl]
  congr 1
  ext i j
  fin_cases i <;> fin_cases j <;> rfl

/-- Claim C1: the interdependency matrix `A*` follows the 2×2 policy over
{input form} × {mode}: raw table in demand mode gives
`A*[i,j] = T[i,j]/x[i]` when `x[i] ≠ 0` and `0` otherwise; raw table in
supply mode gives `A* = transpose(A)` with
`A[i,j] = T[i,j]/x[j]` when `x[j] ≠ 0` and `0` otherwise; a pre-built
input matrix passes through unchanged in both modes. -/
theorem claim1_astar_policy {n : ℕ} {sectors : Fin n → String}
    {rows : List (Fin n → ℚ)} {ps : List String} {cv : List ℚ}
    {table mode : String} {m : Model n}
    (h : construct sectors rows ps cv table mode = some m) :
    (table = "IO" → mode = "Demand" → ∀ i j,
      m.astar i j =
        if m.xoutput i ≠ 0 then m.ioTab i j / m.xoutput i else 0) ∧
    (table = "IO" → mode = "Supply" →
      m.astar = m.amat.transpose ∧ ∀ i j,
        m.amat i j =
          if m.xoutput j ≠ 0 then m.ioTab i j / m.xoutput j else 0) ∧
    (table ≠ "IO" → ∀ t, rowsToMatrix rows = some t → m.astar = t) := by
  obtain ⟨t, s, c, hT, hc, hs, rfl⟩ := construct_some_elim h
  refine ⟨?_, ?_, ?_⟩
  · rintro rfl rfl
    intro i j
    dsimp only
    unfold interdependencyMatrix
    rw [if_neg (by decide), if_pos rfl]
    rfl
  · rintro rfl rfl
    dsimp only
    constructor
    · unfold interdependencyMatrix
      rw [if_pos rfl, if_pos rfl]
    · intro i j
      unfold techCoeffMatrix
      rw [if_pos rfl]
      rfl
  · intro hnio t2 ht2
    dsimp only
    have hread : readIOTable rows table = (rows, fun _ => 0) :=
      readIOTable_other rows hnio
    rw [hread] at hT
    have htt : t = t2 := by
      rw [hT] at ht2
      exact Option.some_injective _ ht2
    unfold interdependencyMatrix
    by_cases hm : mode = "Supply"
    · rw [if_pos hm, if_neg hnio]
      exact htt
    · rw [if_neg hm, if_neg hnio]
      exact htt

/-- Witness for C1: the raw 2-sector table `ioRows` built in demand and
in supply mode, and `pbRows` as a pre-built matrix, instantiate all three
policy rows. -/
theorem claim1_witness :
    (construct secAB ioRows [] [] "IO" "Demand" = some ioModelD ∧
      ∀ i j, ioModelD.astar i j =
        if ioModelD.xoutput i ≠ 0 then ioModelD.ioTab i j / ioModelD.xoutput i
        else 0) ∧
    (construct secAB ioRows [] [] "IO" "Supply" = some ioModelS ∧
      ioModelS.astar = ioModelS.amat.transpose) ∧
    (construct secAB pbRows [] [] "A" "Demand" =
        some (pbModel (fun _ => 0) "Demand") ∧
      (pbModel (fun _ => 0) "Demand").astar = pbAstar) := by
  have hs : "Demand" ≠ "Supply" := by decide
  refine ⟨⟨ioD_construct, ?_⟩, ⟨ioS_construct, ?_⟩, ⟨?_, ?_⟩⟩
  · exact (claim1_astar_policy ioD_construct).1 rfl rfl
  · exact ((claim1_astar_policy ioS_construct).2.1 rfl rfl).1
  · exact pb_construct hs (perturb_empty secAB)
  · exact (claim1_astar_policy
      (pb_construct hs (perturb_empty secAB))).2.2 (by decide) pbAstar pb_parse

/-- Claim C3: the resolvent solver computes `S = (I − A*)⁻¹` (a genuine
two-sided inverse), and when `I − A*` is singular the construction fails
with a raised error (`none`) rather than returning any best-effort
result. -/
theorem claim3_resolvent {n : ℕ} (sectors : Fin n → String)
    (rows : List (Fin n → ℚ)) (ps : List String) (cv : List ℚ)
    (table mode : String) :
    (∀ m : Model n, construct sectors rows ps cv table mode = some m →
      m.smat = (1 - m.astar)⁻¹ ∧
      (1 - m.astar) * m.smat = 1 ∧ m.smat * (1 - m.astar) = 1) ∧
    (∀ t c, rowsToMatrix (readIOTable rows table).1 = some t →
      createPerturbation sectors ps cv = some c →
      (1 - interdependencyMatrix table mode t (readIOTable rows table).2
        (techCoeffMatrix table t (readIOTable rows table).2)).det = 0 →
      construct sectors rows ps cv table mode = none) := by
  constructor
  · intro m h
    obtain ⟨t, s, c, hT, hc, hs, rfl⟩ := construct_some_elim h
    obtain ⟨hd, hinv, hmul1, hmul2⟩ := npLinalgInv_some hs
    exact ⟨hinv, hmul1, hmul2⟩
  · intro t c hT hc hdet
    unfold construct
    rw [hT, hc]
    dsimp only
    rw [npLinalgInv_of_det_eq _ hdet]

/-- Witness for C3: the demand-mode model of `ioRows` has a genuine
resolvent, and the pre-built identity matrix (`idRows`) makes `I − A*`
singular, so construction fails. -/
theorem claim3_witness :
    (construct secAB ioRows [] [] "IO" "Demand" = some ioModelD ∧
      ioModelD.smat = (1 - ioModelD.astar)⁻¹ ∧
      (1 - ioModelD.astar) * ioModelD.smat = 1 ∧
      ioModelD.smat * (1 - ioModelD.astar) = 1) ∧
    construct secAB idRows [] [] "A" "Demand" = none := by
  constructor
  · exact ⟨ioD_construct,
      (claim3_resolvent secAB ioRows [] [] "IO" "Demand").1 ioModelD
        ioD_construct⟩
  · have hdet : (1 - interdependencyMatrix "A" "Demand" 1
        (readIOTable idRows "A").2
        (techCoeffMatrix "A" 1 (readIOTable idRows "A").2)).det = 0 := by
      have e3 : interdependencyMatrix "A" "Demand" (1 : Matrix (Fin 2) (Fin 2) ℚ)
          (readIOTable idRows "A").2
          (techCoeffMatrix "A" 1 (readIOTable idRows "A").2) = 1 := by
        unfold interdependencyMatrix
        rw [if_neg (by decide), if_neg (by decide)]
      rw [e3, sub_self]
      exact Matrix.det_zero (instNonemptyOfInhabited)
    exact (claim3_resolvent secAB idRows [] [] "A" "Demand").2 1 (fun _ => 0)
      id_parse (perturb_empty secAB) hdet

/-! ### Perturbation-builder lemmas (C4) -/

theorem getLoc_some_name {n : ℕ} {sectors : Fin n → String} {t : String}
    {i : Fin n} (h : getLoc sectors t = some i) : sectors i = t := by
  unfold getLoc at h
  have hb := List.find?_some h
  simp only at hb
  exact eq_of_beq hb

theorem map_fst_zip_sublist {α β : Type} :
    ∀ (l1 : List α) (l2 : List β), ((l1.zip l2).map Prod.fst).Sublist l1
  | [], _ => by simp
  | _ :: _, [] => by simp
  | a :: l1, b :: l2 => by
    simp only [List.zip_cons_cons, List.map_cons]
    exact List.Sublist.cons₂ a (map_fst_zip_sublist l1 l2)

theorem perturbLoop_none_iff {n : ℕ} (sectors : Fin n → String) :
    ∀ (pairs : List (String × ℚ)) (c0 : Fin n → ℚ),
      perturbLoop sectors pairs c0 = none ↔
        ∃ p ∈ pairs, getLoc sectors p.1 = none
  | [], c0 => by simp [perturbLoop]
  | (ps, cs) :: rest, c0 => by
    unfold perturbLoop
    cases hg : getLoc sectors ps with
    | none =>
      constructor
      · intro _
        exact ⟨(ps, cs), List.mem_cons_self _ _, hg⟩
      · intro _
        rfl
    | some idx =>
      rw [perturbLoop_none_iff sectors rest (Function.update c0 idx cs)]
      constructor
      · rintro ⟨p, hp, hpl⟩
        exact ⟨p, List.mem_cons_of_mem _ hp, hpl⟩
      · rintro ⟨p, hp, hpl⟩
        rcases List.mem_cons.mp hp with h1 | h2
        · subst h1
          rw [hg] at hpl
          cases hpl
        · exact ⟨p, h2, hpl⟩

theorem perturbLoop_untouched {n : ℕ} (sectors : Fin n → String) :
    ∀ (pairs : List (String × ℚ)) (c0 c : Fin n → ℚ) (i : Fin n),
      perturbLoop sectors pairs c0 = some c →
      (∀ p ∈ pairs, getLoc sectors p.1 ≠ some i) → c i = c0 i
  | [], c0, c, i => by
    intro h _
    cases h
    rfl
  | (ps, cs) :: rest, c0, c, i => by
    intro h hn
    unfold perturbLoop at h
    cases hg : getLoc sectors ps with
    | none =>
      rw [hg] at h
      cases h
    | some idx =>
      rw [hg] at h
      have hne : idx ≠ i := by
        intro he
        exact hn (ps, cs) (List.mem_cons_self _ _) (by rw [hg, he])
      have := perturbLoop_untouched sectors rest _ c i h
        (fun p hp => hn p (List.mem_cons_of_mem _ hp))
      rw [this, Function.update_noteq (Ne.symm hne)]

theorem perturbLoop_assigned {n : ℕ} (sectors : Fin n → String) :
    ∀ (pairs : List (String × ℚ)) (c0 c : Fin n → ℚ) (nm : String) (v : ℚ)
      (i : Fin n),
      perturbLoop sectors pairs c0 = some c →
      (nm, v) ∈ pairs → getLoc sectors nm = some i →
      (pairs.map Prod.fst).Nodup → c i = v
  | [], c0, c, nm, v, i => by
    intro _ hmem _ _
    cases hmem
  | (ps, cs) :: rest, c0, c, nm, v, i => by
    intro h hmem hloc hnd
    unfold perturbLoop at h
    cases hg : getLoc sectors ps with
    | none =>
      rw [hg] at h
      cases h
    | some idx =>
      rw [hg] at h
      rcases List.mem_cons.mp hmem with h1 | h2
      · obtain ⟨rfl, rfl⟩ := Prod.mk.injEq .. |>.mp h1.symm |>.imp Eq.symm Eq.symm
        have hidx : idx = i := by
          rw [hloc] at hg
          exact (Option.some_injective _ hg).symm
        subst hidx
        have hrest : ∀ p ∈ rest, getLoc sectors p.1 ≠ some idx := by
          intro p hp hpl
          have hname : sectors idx = p.1 := getLoc_some_name hpl
          have hname2 : sectors idx = nm := getLoc_some_name hloc
          have : p.1 = nm := by rw [← hname, hname2]
          have hmap : nm ∈ rest.map Prod.fst := by
            rw [← this]
            exact List.mem_map_of_mem Prod.fst hp
          exact (List.nodup_cons.mp hnd).1 hmap
        have := perturbLoop_untouched sectors rest _ c idx h hrest
        rw [this, Function.update_same]
      · exact perturbLoop_assigned sectors rest _ c nm v i h h2 hloc
          (List.nodup_cons.mp hnd).2

/-- Claim C4 (amended): the perturbation vector builder produces a dense
zero-initialised vector of length `N` with `c*[index(sector)] = fraction`
for each zipped (name, value) pair, and fails (Python `KeyError`) exactly
when some zipped name is absent from the sector list.  No range check is
performed on the fractions, and name/value lists of different lengths are
silently truncated by `zip` rather than rejected. -/
theorem claim4_perturbation {n : ℕ} (sectors : Fin n → String)
    (ps : List String) (cv : List ℚ) :
    (createPerturbation sectors ps cv = none ↔
      ∃ p ∈ ps.zip cv, getLoc sectors p.1 = none) ∧
    (∀ c, createPerturbation sectors ps cv = some c →
      (∀ i : Fin n, (∀ p ∈ ps.zip cv, getLoc sectors p.1 ≠ some i) →
        c i = 0) ∧
      (ps.Nodup → ∀ nm v i, (nm, v) ∈ ps.zip cv →
        getLoc sectors nm = some i → c i = v)) := by
  constructor
  · exact perturbLoop_none_iff sectors (ps.zip cv) (fun _ => 0)
  · intro c hc
    constructor
    · intro i hi
      exact perturbLoop_untouched sectors (ps.zip cv) _ c i hc hi
    · intro hnd nm v i hmem hloc
      have hndz : ((ps.zip cv).map Prod.fst).Nodup :=
        (map_fst_zip_sublist ps cv).nodup hnd
      exact perturbLoop_assigned sectors (ps.zip cv) _ c nm v i hc hmem hloc
        hndz

theorem cs_S1_32 : createPerturbation secAB ["S1"] [3/2] =
    some ![3/2, 0] := by
  show perturbLoop secAB [("S1", 3/2)] (fun _ => 0) = some ![3/2, 0]
  unfold perturbLoop
  rw [show getLoc secAB "S1" = some 0 from rfl]
  show some (Function.update (fun _ => (0 : ℚ)) 0 (3/2)) = some ![3/2, 0]
  congr 1
  ext i
  fin_cases i <;> norm_num [Function.update]

theorem cs_trunc : createPerturbation secAB ["S1", "S2"] [0] =
    some ![0, 0] := by
  show perturbLoop secAB [("S1", 0)] (fun _ => 0) = some ![0, 0]
  unfold perturbLoop
  rw [show getLoc secAB "S1" = some 0 from rfl]
  show some (Function.update (fun _ => (0 : ℚ)) 0 0) = some ![0, 0]
  congr 1
  ext i
  fin_cases i <;> norm_num [Function.update]

theorem cs_S2_1 : createPerturbation secAB ["S2"] [1] = some ![0, 1] := by
  show perturbLoop secAB [("S2", 1)] (fun _ => 0) = some ![0, 1]
  unfold perturbLoop
  rw [show getLoc secAB "S2" = some 1 from rfl]
  show some (Function.update (fun _ => (0 : ℚ)) 1 1) = some ![0, 1]
  congr 1
  ext i
  fin_cases i <;> norm_num [Function.update]

/-- Counterexample to C4 as stated: a perturbation fraction of `1.5`
(outside `[0,1]`) raises no error — the model is constructed and stores
`1.5` — and name/value lists of different lengths are truncated, not
rejected. -/
theorem claim4_counterexample :
    (construct secAB pbRows ["S1"] [3/2] "A" "Demand").map (fun m => m.cstar)
      = some ![3/2, 0] ∧
    ¬ ((3 : ℚ)/2 ≤ 1) ∧
    (construct secAB pbRows ["S1", "S2"] [0] "A" "Demand").map
      (fun m => m.cstar) = some ![0, 0] := by
  have hmode : "Demand" ≠ "Supply" := by decide
  refine ⟨?_, by norm_num, ?_⟩
  · rw [pb_construct hmode cs_S1_32, Option.map_some']
    rfl
  · rw [pb_construct hmode cs_trunc, Option.map_some']
    rfl

/-- Witness for C4 (amended): a known sector is assigned and the other
entry stays zero; an unknown sector name fails the construction of the
perturbation vector. -/
theorem claim4_witness :
    createPerturbation secAB ["S2"] [1] = some ![0, 1] ∧
    (![0, 1] : Fin 2 → ℚ) 0 = 0 ∧ (![0, 1] : Fin 2 → ℚ) 1 = 1 ∧
    createPerturbation secAB ["missing"] [1] = none := by
  have h := claim4_perturbation secAB ["S2"] [1]
  have h2 := claim4_perturbation secAB ["missing"] [1]
  refine ⟨cs_S2_1, ?_, ?_, ?_⟩
  · exact (h.2 _ cs_S2_1).1 0 (by decide)
  · exact (h.2 _ cs_S2_1).2 (by decide) "S2" 1 1 (by decide) (by decide)
  · exact h2.1.mpr ⟨("missing", 1), by decide, by decide⟩

/-! ### The spec's concrete 2-sector scenario (C6) -/

theorem c6_parse : rowsToMatrix c6rows = some c6astar := by
  rw [rowsToMatrix_len c6rows rfl]
  congr 1
  ext i j
  fin_cases i <;> fin_cases j <;> rfl

theorem c6_perturb : createPerturbation c6sectors ["Sector2"] [3/5] =
    some c6cstar := by
  show perturbLoop c6sectors [("Sector2", 3/5)] (fun _ => 0) = some c6cstar
  unfold perturbLoop
  rw [show getLoc c6sectors "Sector2" = some 1 from rfl]
  show some (Function.update (fun _ => (0 : ℚ)) 1 (3/5)) = some c6cstar
  congr 1
  ext i
  fin_cases i <;> norm_num [Function.update, c6cstar]

theorem c6_one_sub :
    (1 : Matrix (Fin 2) (Fin 2) ℚ) - c6astar = !![1, -(4/5); -(7/10), 1] := by
  ext i j
  fin_cases i <;> fin_cases j <;>
    norm_num [c6astar, Matrix.one_apply, Matrix.sub_apply]

theorem c6_det : ((1 : Matrix (Fin 2) (Fin 2) ℚ) - c6astar).det ≠ 0 := by
  rw [c6_one_sub, Matrix.det_fin_two_of]
  norm_num

theorem c6_smat_eq :
    (((1 : Matrix (Fin 2) (Fin 2) ℚ) - c6astar).det)⁻¹ •
      ((1 : Matrix (Fin 2) (Fin 2) ℚ) - c6astar).adjugate = c6smat := by
  rw [c6_one_sub, Matrix.det_fin_two_of, Matrix.adjugate_fin_two_of]
  ext i j
  fin_cases i <;> fin_cases j <;> norm_num [c6smat, Matrix.smul_apply]

theorem c6_construct :
    construct c6sectors c6rows ["Sector2"] [3/5] "A" "Demand" =
      some c6model := by
  have htable : "A" ≠ "IO" := by decide
  have hmode : "Demand" ≠ "Supply" := by decide
  have h := construct_prebuilt htable hmode c6_parse c6_perturb c6_det
  rw [h, c6_smat_eq]
  rfl

theorem c6_raw : c6model.smat.mulVec c6model.cstar = ![12/11, 15/11] := by
  ext i
  fin_cases i <;>
    norm_num [c6model, c6smat, c6cstar, Matrix.mulVec, Matrix.dotProduct,
      Fin.sum_univ_two]

theorem c6_q : inoperability c6model = ![1, 1] := by
  ext i
  have h := c6_raw
  fin_cases i <;>
  · unfold inoperability
    rw [show c6model.smat.mulVec c6model.cstar = ![12/11, 15/11] from h]
    norm_num

/-- Counterexample to C6 as stated: for the 2-sector demand-mode model
with pre-built `A* = [[0, 0.8], [0.7, 0]]` and `c* = [0, 0.6]`, the first
inoperability entry is `1`, which is not within `10⁻³` of `0.571` (nor is
the second within `10⁻³` of `0.714`). -/
theorem claim6_counterexample :
    (construct c6sectors c6rows ["Sector2"] [3/5] "A" "Demand").map
      (fun m => inoperability m) = some ![1, 1] ∧
    ¬ (|(1 : ℚ) - 571/1000| ≤ 1/1000) ∧
    ¬ (|(1 : ℚ) - 714/1000| ≤ 1/1000) := by
  refine ⟨?_, by rw [abs_le]; norm_num, by rw [abs_le]; norm_num⟩
  rw [c6_construct, Option.map_some', c6_q]

/-- Claim C6 (amended): for the 2-sector model built in demand mode from
the pre-built matrix `A* = [[0, 0.8], [0.7, 0]]` with `c* = [0, 0.6]`,
the raw resolvent output is `S·c* = [12/11, 15/11] ≈ [1.091, 1.364]`, so
`inoperability()` returns the clamped vector `[1, 1]` exactly.  (The
spec's expected `[0.571, 0.714]` is the output of the Haimes–Jiang
example matrix `[[0, 0.8], [0.2, 0]]`, not of the matrix it states.) -/
theorem claim6_concrete :
    (construct c6sectors c6rows ["Sector2"] [3/5] "A" "Demand").map
      (fun m => inoperability m) = some ![1, 1] ∧
    (construct c6sectors c6rows ["Sector2"] [3/5] "A" "Demand").map
      (fun m => m.smat.mulVec m.cstar) = some ![12/11, 15/11] := by
  rw [c6_construct, Option.map_some', Option.map_some', c6_q, c6_raw]
  exact ⟨rfl, rfl⟩

/-! ### Round-trip (C7) -/

theorem rowsToMatrix_matrixRows {n : ℕ} (M : Matrix (Fin n) (Fin n) ℚ) :
    rowsToMatrix (matrixRows M) = some M := by
  have hlen : (matrixRows M).length = n := by
    unfold matrixRows
    rw [List.length_map, List.length_finRange]
  rw [rowsToMatrix_len _ hlen]
  congr 1
  ext i j
  show ((matrixRows M).get (Fin.cast hlen.symm i)) j = M i j
  unfold matrixRows
  simp [List.get_eq_getElem, List.getElem_map, List.getElem_finRange]

/-- Claim C7: building `A*` from a raw table in demand mode, then feeding
that same `A*` back in as a pre-built matrix in demand mode, yields a
model with identical `A*`, identical `S`, and (for the same perturbation
arguments) an identical inoperability vector. -/
theorem claim7_roundtrip {n : ℕ} {sectors : Fin n → String}
    {rows : List (Fin n → ℚ)} {ps : List String} {cv : List ℚ}
    {m1 : Model n}
    (h : construct sectors rows ps cv "IO" "Demand" = some m1) :
    ∃ m2 : Model n,
      construct sectors (matrixRows m1.astar) ps cv "A" "Demand" = some m2 ∧
      m2.astar = m1.astar ∧ m2.smat = m1.smat ∧
      inoperability m2 = inoperability m1 := by
  obtain ⟨t, s, c, hT, hc, hs, rfl⟩ := construct_some_elim h
  have hdet := (npLinalgInv_some hs).1
  have hsm : ((1 - interdependencyMatrix "IO" "Demand" t
      (readIOTable rows "IO").2
      (techCoeffMatrix "IO" t (readIOTable rows "IO").2)).det)⁻¹ •
      (1 - interdependencyMatrix "IO" "Demand" t (readIOTable rows "IO").2
      (techCoeffMatrix "IO" t (readIOTable rows "IO").2)).adjugate = s :=
    Option.some_injective _ ((npLinalgInv_of_det_ne _ hdet).symm.trans hs)
  have h2 := construct_prebuilt (show "A" ≠ "IO" by decide)
    (show "Demand" ≠ "Supply" by decide)
    (rowsToMatrix_matrixRows _) hc hdet
  rw [hsm] at h2
  exact ⟨_, h2, rfl, rfl, rfl⟩

/-- Witness for C7: the round-trip instantiated on the raw 2-sector
table `ioRows`. -/
theorem claim7_witness :
    construct secAB ioRows [] [] "IO" "Demand" = some ioModelD ∧
    ∃ m2 : Model 2,
      construct secAB (matrixRows ioModelD.astar) [] [] "A" "Demand" =
        some m2 ∧
      m2.astar = ioModelD.astar ∧ m2.smat = ioModelD.smat ∧
      inoperability m2 = inoperability ioModelD :=
  ⟨ioD_construct, claim7_roundtrip ioD_construct⟩

/-! ### First-maximum scan lemmas (C9) -/

theorem argmaxFrom_le {k : ℕ} (v : Fin k → ℚ) :
    ∀ (l : List (Fin k)) (b : Fin k),
      v b ≤ v (argmaxFrom v b l) ∧ ∀ j ∈ l, v j ≤ v (argmaxFrom v b l)
  | [], b => by
    refine ⟨le_refl _, ?_⟩
    intro j hj
    cases hj
  | idx :: rest, b => by
    unfold argmaxFrom
    by_cases hlt : v b < v idx
    · rw [if_pos hlt]
      obtain ⟨h1, h2⟩ := argmaxFrom_le v rest idx
      refine ⟨le_trans hlt.le h1, ?_⟩
      intro j hj
      rcases List.mem_cons.mp hj with rfl | hj2
      · exact h1
      · exact h2 j hj2
    · rw [if_neg hlt]
      obtain ⟨h1, h2⟩ := argmaxFrom_le v rest b
      refine ⟨h1, ?_⟩
      intro j hj
      rcases List.mem_cons.mp hj with rfl | hj2
      · exact le_trans (not_lt.mp hlt) h1
      · exact h2 j hj2

theorem argmaxFrom_first {k : ℕ} (v : Fin k → ℚ) :
    ∀ (l : List (Fin k)) (b : Fin k), (b :: l).Sorted (· < ·) →
      ∀ j ∈ b :: l, v j = v (argmaxFrom v b l) → argmaxFrom v b l ≤ j
  | [], b => by
    intro _ j hj _
    rcases List.mem_singleton.mp hj with rfl
    exact le_refl _
  | idx :: rest, b => by
    intro hsort j hj hv
    rw [List.sorted_cons] at hsort
    obtain ⟨hball, hsrest⟩ := hsort
    unfold argmaxFrom at hv ⊢
    by_cases hlt : v b < v idx
    · rw [if_pos hlt] at hv ⊢
      rcases List.mem_cons.mp hj with rfl | hj2
      · exfalso
        have h1 := (argmaxFrom_le v rest idx).1
        have hlt2 : v j < v (argmaxFrom v idx rest) := lt_of_lt_of_le hlt h1
        exact absurd hv (ne_of_lt hlt2)
      · exact argmaxFrom_first v rest idx hsrest j hj2 hv
    · rw [if_neg hlt] at hv ⊢
      have hsort2 : (b :: rest).Sorted (· < ·) := by
        rw [List.sorted_cons]
        refine ⟨fun x hx => hball x (List.mem_cons_of_mem _ hx), ?_⟩
        rw [List.sorted_cons] at hsrest
        exact hsrest.2
      rcases List.mem_cons.mp hj with rfl | hj2
      · exact argmaxFrom_first v rest j hsort2 j (List.mem_cons_self _ _) hv
      · rcases List.mem_cons.mp hj2 with rfl | hj3
        · have h1 := (argmaxFrom_le v rest b).1
          have hvb : v b = v (argmaxFrom v b rest) := by
            have hge : v (argmaxFrom v b rest) ≤ v b := by
              rw [← hv]
              exact not_lt.mp hlt
            exact le_antisymm h1 hge
          have hr := argmaxFrom_first v rest b hsort2 b
            (List.mem_cons_self _ _) hvb
          exact le_trans hr (le_of_lt (hball j (List.mem_cons_self _ _)))
        · exact argmaxFrom_first v rest b hsort2 j
            (List.mem_cons_of_mem _ hj3) hv

theorem npArgmax_spec {k : ℕ} (v : Fin k → ℚ) (hk : 0 < k) :
    ∃ r, npArgmax v = some r ∧ (∀ j, v j ≤ v r) ∧
      (∀ j, v j = v r → r ≤ j) := by
  unfold npArgmax
  cases hfr : List.finRange k with
  | nil => exact absurd (List.finRange_eq_nil.mp hfr) hk.ne'
  | cons b rest =>
    refine ⟨argmaxFrom v b rest, rfl, ?_, ?_⟩
    · intro j
      have hj : j ∈ List.finRange k := List.mem_finRange j
      rw [hfr] at hj
      rcases List.mem_cons.mp hj with rfl | hj2
      · exact (argmaxFrom_le v rest j).1
      · exact (argmaxFrom_le v rest b).2 j hj2
    · intro j hv
      have hsort : (b :: rest).Sorted (· < ·) := by
        rw [← hfr]
        exact List.pairwise_lt_finRange k
      have hj : j ∈ List.finRange k := List.mem_finRange j
      rw [hfr] at hj
      exact argmaxFrom_first v rest b hsort j hj hv

theorem maxRowsLoop_eq_map {n : ℕ} (sectors : Fin n → String)
    (amat : Matrix (Fin n) (Fin n) ℚ) (g : Fin n → Fin n)
    (hg : ∀ i, npArgmax (fun j => amat i j) = some (g i)) :
    ∀ l : List (Fin n),
      maxRowsLoop sectors amat l =
        some (l.map fun i => (sectors i, sectors (g i), amat i (g i)))
  | [] => rfl
  | i :: rest => by
    unfold maxRowsLoop
    rw [hg i, maxRowsLoop_eq_map sectors amat g hg rest]
    rfl

/-- Claim C9: for every order `≥ 1` (and a nonempty sector list),
`max_nth_order_interdependency` returns one
`(sector_i, sector_j, value)` triple per sector, in sector order, where
for each row `i` of `A*^order` the returned column `jm` attains the row
maximum, `value` is that maximum, and ties are broken by the lowest
column index (`jm ≤ j` for every other maximiser `j`). -/
theorem claim9_max_nth {n : ℕ} (m : Model n) (order : ℕ)
    (ho : 1 ≤ order) (hn : 0 < n) :
    ∃ l, maxNthOrderInterdependency m order = some l ∧ l.length = n ∧
      ∀ i : Fin n, ∃ jm : Fin n,
        l.get? i.1 =
          some (m.sectors i, m.sectors jm, (m.astar ^ order) i jm) ∧
        (∀ j, (m.astar ^ order) i j ≤ (m.astar ^ order) i jm) ∧
        (∀ j, (m.astar ^ order) i j = (m.astar ^ order) i jm → jm ≤ j) := by
  classical
  have hrow : ∀ i : Fin n, ∃ r,
      npArgmax (fun j => (m.astar ^ order) i j) = some r ∧
      (∀ j, (m.astar ^ order) i j ≤ (m.astar ^ order) i r) ∧
      (∀ j, (m.astar ^ order) i j = (m.astar ^ order) i r → r ≤ j) :=
    fun i => npArgmax_spec _ hn
  choose g hg1 hg2 hg3 using hrow
  refine ⟨(List.finRange n).map fun i =>
      (m.sectors i, m.sectors (g i), (m.astar ^ order) i (g i)),
    ?_, ?_, ?_⟩
  · unfold maxNthOrderInterdependency
    rw [if_pos ho]
    exact maxRowsLoop_eq_map m.sectors _ g hg1 _
  · rw [List.length_map, List.length_finRange]
  · intro i
    refine ⟨g i, ?_, hg2 i, hg3 i⟩
    have hlt : i.1 < (List.finRange n).length := by
      rw [List.length_finRange]
      exact i.2
    rw [List.get?_map, List.get?_eq_get hlt, List.get_finRange]
    simp only [Option.map_some', Fin.eta]

/-- Witness for C9: the claim instantiated at order `1` on the 2-sector
model literal. -/
theorem claim9_witness :
    (1 ≤ 1) ∧ (0 < 2) ∧
    ∃ l, maxNthOrderInterdependency mdl2 1 = some l ∧ l.length = 2 ∧
      ∀ i : Fin 2, ∃ jm : Fin 2,
        l.get? i.1 =
          some (mdl2.sectors i, mdl2.sectors jm, (mdl2.astar ^ 1) i jm) ∧
        (∀ j, (mdl2.astar ^ 1) i j ≤ (mdl2.astar ^ 1) i jm) ∧
        (∀ j, (mdl2.astar ^ 1) i j = (mdl2.astar ^ 1) i jm → jm ≤ j) :=
  ⟨le_refl 1, by norm_num, claim9_max_nth mdl2 1 (le_refl 1) (by norm_num)⟩

/-! ### Selector fall-through (C10) -/

theorem itd_mode_other {n : ℕ} {mode : String} (hm : mode ≠ "Supply")
    (table : String) (t : Matrix (Fin n) (Fin n) ℚ) (x : Fin n → ℚ)
    (a : Matrix (Fin n) (Fin n) ℚ) :
    interdependencyMatrix table mode t x a =
      interdependencyMatrix table "Demand" t x a := by
  unfold interdependencyMatrix
  rw [if_neg hm, if_neg (show ¬ ("Demand" = "Supply") from by decide)]

/-- Claim C10 (amended): the selectors are never validated.  Any mode
string other than exactly `"Supply"` produces the same stored matrices,
vectors and inoperability output as `mode = "Demand"`, and any table
string other than exactly `"IO"` treats the input as a pre-built
interdependency matrix; no error is raised for an unrecognised selector.
However, the dependency/influence family compares the mode against
exactly `"Demand"`, so for any other mode string (including
misspellings of demand) those four indices are the zero vector. -/
theorem claim10_selector_fallthrough {n : ℕ} (sectors : Fin n → String)
    (rows : List (Fin n → ℚ)) (ps : List String) (cv : List ℚ)
    (table mode : String) (hm : mode ≠ "Supply") :
    ((construct sectors rows ps cv table mode).map derivedData =
      (construct sectors rows ps cv table "Demand").map derivedData) ∧
    (∀ m, construct sectors rows ps cv table mode = some m →
      table ≠ "IO" → ∀ t, rowsToMatrix rows = some t → m.astar = t) ∧
    (∀ m, construct sectors rows ps cv table mode = some m →
      mode ≠ "Demand" → ∀ i, dependency m i = 0 ∧ influence m i = 0 ∧
        overallDependency m i = 0 ∧ overallInfluence m i = 0) := by
  refine ⟨?_, ?_, ?_⟩
  · unfold construct
    cases hT : rowsToMatrix (readIOTable rows table).1 with
    | none => rfl
    | some t =>
      cases hc : createPerturbation sectors ps cv with
      | none => rfl
      | some c =>
        dsimp only
        rw [itd_mode_other hm]
        cases hs : npLinalgInv (1 - interdependencyMatrix table "Demand" t
            (readIOTable rows table).2
            (techCoeffMatrix table t (readIOTable rows table).2)) with
        | none => rfl
        | some s2 =>
          simp only [Option.map_some']
          unfold derivedData inoperability
          rfl
  · intro m hm2 hnio t2 ht2
    obtain ⟨t, s, c, hT, hc, hs, rfl⟩ := construct_some_elim hm2
    dsimp only
    rw [readIOTable_other rows hnio] at hT
    have htt : t = t2 := Option.some_injective _ (hT.symm.trans ht2)
    unfold interdependencyMatrix
    rw [if_neg hm, if_neg hnio]
    exact htt
  · intro m hm2 hd i
    obtain ⟨t, s, c, hT, hc, hs, rfl⟩ := construct_some_elim hm2
    refine ⟨?_, ?_, ?_, ?_⟩
    · unfold dependency
      dsimp only
      rw [if_neg hd, zero_div]
    · unfold influence
      dsimp only
      rw [if_neg hd, zero_div]
    · unfold overallDependency
      dsimp only
      rw [if_neg hd, zero_div]
    · unfold overallInfluence
      dsimp only
      rw [if_neg hd, zero_div]

/-- Counterexample to C10 as stated: with the lowercase mode string
`"demand"` the model is constructed with the demand-mode matrices, but
the derived output `dependency()` is the zero vector rather than the
value produced under `mode = "Demand"` — so not *all* derived outputs
are identical. -/
theorem claim10_counterexample :
    (construct secAB pbRows [] [] "A" "demand").map
      (fun m => dependency m 0) = some 0 ∧
    (construct secAB pbRows [] [] "A" "Demand").map
      (fun m => dependency m 0) = some (1/2) ∧
    (0 : ℚ) ≠ 1/2 := by
  have h1 := pb_construct (show "demand" ≠ "Supply" by decide)
    (perturb_empty secAB)
  have h2 := pb_construct (show "Demand" ≠ "Supply" by decide)
    (perturb_empty secAB)
  refine ⟨?_, ?_, by norm_num⟩
  · rw [h1, Option.map_some']
    congr 1
    unfold dependency
    rw [if_neg (show ¬ (pbModel (fun _ => 0) "demand").mode = "Demand"
      by decide), zero_div]
  · rw [h2, Option.map_some']
    congr 1
    unfold dependency
    rw [if_pos (show (pbModel (fun _ => (0:ℚ)) "Demand").mode = "Demand"
      from rfl), Finset.sum_filter, Fin.sum_univ_two]
    norm_num [pbModel, pbAstar]

/-- Witness for C10 (amended): mode `"demand"` (not `"Supply"`) on the
pre-built matrix scenario — the numerical data agrees with
`mode = "Demand"`, the input matrix passes through as `A*`, and the
dependency index collapses to zero. -/
theorem claim10_witness :
    (construct secAB pbRows [] [] "A" "demand").map derivedData =
      (construct secAB pbRows [] [] "A" "Demand").map derivedData ∧
    (pbModel (fun _ => 0) "demand").astar = pbAstar ∧
    dependency (pbModel (fun _ => 0) "demand") 0 = 0 := by
  have hm : "demand" ≠ "Supply" := by decide
  have hcon := pb_construct hm (perturb_empty secAB)
  have h := claim10_selector_fallthrough secAB pbRows [] [] "A" "demand" hm
  refine ⟨h.1, ?_, ?_⟩
  · exact h.2.1 _ hcon (by decide) pbAstar pb_parse
  · exact (h.2.2 _ hcon (by decide) 0).1

end IIM





